import Mathlib

/-
Verification of the natural-language specification of pendulum
(src/pendulum/pendulum.py) against a shallow embedding of the code.

Modelling conventions:
* Machine integers are `Int`; Python `//` and `%` have floor semantics, which
  coincide with Lean's `/` and `%` on `Int` for the positive divisors used here.
* `self._datetime` is a pytz-aware datetime: civil fields plus the fixed UTC
  offset (a whole number of minutes) carried by the attached tzinfo object.
  Naive datetime arithmetic (`datetime + timedelta`) is exact Gregorian
  day/time arithmetic on the civil fields with the tzinfo (offset) unchanged.
* The timezone-rule database (pytz) is an external collaborator; a zone is
  modelled as its two offset authorities (offset at an absolute instant, used
  by astimezone/fromutc, and offset assigned by localize to a wall time).
* The generic strftime template renderer is an external collaborator, modelled
  as an opaque function; format strings are lists of characters.
* Python datetime's year range [1, 9999] is a limit of the external calendar
  primitive and is not modelled: years are unbounded integers.
-/

set_option maxHeartbeats 1000000
set_option maxRecDepth 16384

namespace PendulumSpec

/-- Leap-year predicate of the proleptic Gregorian calendar, as decided by the
external `calendar`/`datetime` primitives the source delegates to. -/
def isLeap (y : Int) : Bool :=
  (y % 4 == 0 && y % 100 != 0) || (y % 400 == 0)

/-- Number of days in month `m` of year `y` (calendar.monthrange(y, m)[1]). -/
def daysInMonth (y m : Int) : Int :=
  if m = 2 then (if isLeap y then 29 else 28)
  else if m = 4 ∨ m = 6 ∨ m = 9 ∨ m = 11 then 30
  else 31

/-- Cumulative day counts before each month in a non-leap year
(datetime._DAYS_BEFORE_MONTH). -/
def dbmBase (m : Int) : Int :=
  if m ≤ 1 then 0 else if m = 2 then 31 else if m = 3 then 59 else if m = 4 then 90
  else if m = 5 then 120 else if m = 6 then 151 else if m = 7 then 181
  else if m = 8 then 212 else if m = 9 then 243 else if m = 10 then 273
  else if m = 11 then 304 else 334

/-- Days in year `y` strictly before month `m`. -/
def daysBeforeMonth (y m : Int) : Int :=
  dbmBase m + (if 2 < m ∧ isLeap y = true then 1 else 0)

/-- Days before January 1 of year `y` on the proleptic Gregorian timeline
(datetime._days_before_year). -/
def daysBeforeYear (y : Int) : Int :=
  365 * (y - 1) + (y - 1) / 4 - (y - 1) / 100 + (y - 1) / 400

/-- Proleptic Gregorian ordinal of a civil date (datetime.toordinal():
0001-01-01 is ordinal 1). -/
def toOrdinal (y m d : Int) : Int := daysBeforeYear y + daysBeforeMonth y m + d

/-- Civil fields of a naive datetime. -/
structure DateTimeV where
  year : Int
  month : Int
  day : Int
  hour : Int
  minute : Int
  second : Int
  microsecond : Int
deriving DecidableEq, Repr

/-- Legality of the civil fields (spec 3: fields always denote a legal
Gregorian civil date/time). -/
def ValidDT (c : DateTimeV) : Prop :=
  1 ≤ c.month ∧ c.month ≤ 12 ∧ 1 ≤ c.day ∧ c.day ≤ daysInMonth c.year c.month ∧
  0 ≤ c.hour ∧ c.hour ≤ 23 ∧ 0 ≤ c.minute ∧ c.minute ≤ 59 ∧
  0 ≤ c.second ∧ c.second ≤ 59 ∧ 0 ≤ c.microsecond ∧ c.microsecond ≤ 999999

instance (c : DateTimeV) : Decidable (ValidDT c) := by
  unfold ValidDT; infer_instance

/-- Successor day in the Gregorian calendar (the external datetime primitive
steps dates exactly this way). -/
def nextDay (c : DateTimeV) : DateTimeV :=
  if c.day < daysInMonth c.year c.month then { c with day := c.day + 1 }
  else if c.month < 12 then { c with month := c.month + 1, day := 1 }
  else { c with year := c.year + 1, month := 1, day := 1 }

/-- Predecessor day in the Gregorian calendar. -/
def prevDay (c : DateTimeV) : DateTimeV :=
  if 1 < c.day then { c with day := c.day - 1 }
  else if 1 < c.month then
    { c with month := c.month - 1, day := daysInMonth c.year (c.month - 1) }
  else { c with year := c.year - 1, month := 12, day := 31 }

/-- Shift a civil datetime by `k` whole days (date fields only). -/
def addDays (k : Int) (c : DateTimeV) : DateTimeV :=
  if 0 ≤ k then nextDay^[k.toNat] c else prevDay^[(-k).toNat] c

/-- Microseconds per day. -/
def muDay : Int := 86400000000

/-- Microseconds elapsed since local midnight. -/
def timeOfDayMicros (c : DateTimeV) : Int :=
  c.hour * 3600000000 + c.minute * 60000000 + c.second * 1000000 + c.microsecond

/-- Addition of a `datetime.timedelta` of `delta` microseconds to a naive civil
datetime: exact Gregorian arithmetic, carrying whole days into the date. -/
def addDeltaMicros (c : DateTimeV) (delta : Int) : DateTimeV :=
  let tot := timeOfDayMicros c + delta
  let q := tot / muDay
  let r := tot % muDay
  let c2 := addDays q c
  { c2 with hour := r / 3600000000,
            minute := (r % 3600000000) / 60000000,
            second := (r % 60000000) / 1000000,
            microsecond := r % 1000000 }

/-- Normalized components of a dateutil relativedelta as pendulum builds them
(relative components only; `wday` is the weekday anchor in dateutil numbering,
Monday = 0, with implicit nth = 1). -/
structure RelDelta where
  years : Int
  months : Int
  days : Int
  hours : Int
  minutes : Int
  seconds : Int
  microseconds : Int
  wday : Option (Fin 7)
deriving DecidableEq, Repr

/-- Python divmod with the sign trick of relativedelta._fix: with s the sign of
x, div, mod = divmod(x*s, m) and the stage yields carry div*s and value mod*s. -/
def signDivmod (x m : Int) : Int × Int :=
  if 0 ≤ x then (x / m, x % m) else (-((-x) / m), -((-x) % m))

/-- One carry stage of relativedelta._fix: a component is rewritten only when
its magnitude exceeds `bound`; the pair is (carry, fixed value). -/
def fixStep (x bound m : Int) : Int × Int :=
  if bound < |x| then signDivmod x m else (0, x)

/-- dateutil.relativedelta.__init__ on the relative arguments pendulum passes:
weeks are folded into days, then _fix carries microseconds, seconds, minutes,
hours (into days) and months (into years). -/
def mkRelDelta (years months weeks days hours minutes seconds microseconds : Int)
    (wday : Option (Fin 7)) : RelDelta :=
  let days0 := days + weeks * 7
  let pus := fixStep microseconds 999999 1000000
  let seconds1 := seconds + pus.1
  let ps := fixStep seconds1 59 60
  let minutes1 := minutes + ps.1
  let pm := fixStep minutes1 59 60
  let hours1 := hours + pm.1
  let ph := fixStep hours1 23 24
  let days1 := days0 + ph.1
  let pmo := fixStep months 11 12
  let years1 := years + pmo.1
  ⟨years1, pmo.2, days1, ph.2, pm.2, ps.2, pus.2, wday⟩

/-- relativedelta.__neg__: rebuild the delta through the constructor with every
numeric component negated and the weekday anchor kept. -/
def negRel (r : RelDelta) : RelDelta :=
  mkRelDelta (-r.years) (-r.months) 0 (-r.days) (-r.hours) (-r.minutes)
    (-r.seconds) (-r.microseconds) r.wday

/-- datetime.weekday(): Monday = 0 (ordinal 1, i.e. 0001-01-01, is a Monday). -/
def weekdayMon (c : DateTimeV) : Int := (toOrdinal c.year c.month c.day - 1) % 7

/-- relativedelta.__radd__ on a datetime: add years, add months with a single
carry, clamp the day into the target month, add the fixed-length components as
one timedelta, then jump forward to the anchor weekday when one is present
(nth = 1 for the plain integers pendulum passes). -/
def applyRel (c : DateTimeV) (r : RelDelta) : DateTimeV :=
  let y1 := c.year + r.years
  let ym :=
    if r.months = 0 then (y1, c.month)
    else
      let m0 := c.month + r.months
      if 12 < m0 then (y1 + 1, m0 - 12)
      else if m0 < 1 then (y1 - 1, m0 + 12)
      else (y1, m0)
  let d2 := min (daysInMonth ym.1 ym.2) c.day
  let c1 := { c with year := ym.1, month := ym.2, day := d2 }
  let tot := r.days * muDay + r.hours * 3600000000 + r.minutes * 60000000 +
    r.seconds * 1000000 + r.microseconds
  let c2 := addDeltaMicros c1 tot
  match r.wday with
  | none => c2
  | some w => addDeltaMicros c2 (((7 - weekdayMon c2 + (w : Int)) % 7) * muDay)

/-- Zone object (external collaborator): the pytz offset authority, in whole
minutes. `offsetAt` is the UTC offset in force at an absolute instant
(microseconds on the proleptic-Gregorian timeline), as used by
astimezone/fromutc; `localOffsetFor` is the offset `tz.localize` assigns to a
wall-clock civil datetime, as used by the constructor (and hence copy). -/
structure Zone where
  offsetAt : Int → Int
  localOffsetFor : DateTimeV → Int

/-- State of a Pendulum instance: `self._datetime` is an aware datetime, i.e.
civil fields plus the fixed UTC offset (minutes) carried by its pytz tzinfo;
`self._tz` is the zone object. -/
structure Pendulum where
  dtv : DateTimeV
  off : Int
  tz : Zone

/-- Microsecond count of a naive civil datetime on the ordinal timeline. -/
def naiveMicros (c : DateTimeV) : Int :=
  toOrdinal c.year c.month c.day * muDay + timeOfDayMicros c

/-- Canonical absolute instant of the instance (microseconds): wall-clock
reading minus the attached UTC offset. -/
def Pendulum.instant (st : Pendulum) : Int :=
  naiveMicros st.dtv - st.off * 60000000

/-- add(): self._datetime = self._datetime + relativedelta(...); the tzinfo
(hence the attached offset) and the zone are untouched. -/
def Pendulum.add (years months weeks days hours minutes seconds microseconds : Int)
    (wday : Option (Fin 7)) (st : Pendulum) : Pendulum :=
  { st with
    dtv := applyRel st.dtv
      (mkRelDelta years months weeks days hours minutes seconds microseconds wday) }

/-- sub(): self._datetime = self._datetime - relativedelta(...), which is
relativedelta.__rsub__, i.e. the negated delta added. -/
def Pendulum.sub (years months weeks days hours minutes seconds microseconds : Int)
    (wday : Option (Fin 7)) (st : Pendulum) : Pendulum :=
  { st with
    dtv := applyRel st.dtv
      (negRel (mkRelDelta years months weeks days hours minutes seconds microseconds wday)) }

/-- add_day(): add(days=1). -/
def Pendulum.addDay (st : Pendulum) : Pendulum :=
  st.add 0 0 0 1 0 0 0 0 none

/-- set_date(): datetime.replace(year, month, day). -/
def Pendulum.setDate (y m d : Int) (st : Pendulum) : Pendulum :=
  { st with dtv := { st.dtv with year := y, month := m, day := d } }

/-- set_time(): datetime.replace(hour, minute, second); the microsecond field
is untouched. -/
def Pendulum.setTime (h mi s : Int) (st : Pendulum) : Pendulum :=
  { st with dtv := { st.dtv with hour := h, minute := mi, second := s } }

/-- set_date_time(): set_date followed by set_time. -/
def Pendulum.setDateTime (y m d h mi s : Int) (st : Pendulum) : Pendulum :=
  (st.setDate y m d).setTime h mi s

/-- start_of_day(): set_time(0, 0, 0). -/
def Pendulum.startOfDay (st : Pendulum) : Pendulum := st.setTime 0 0 0

/-- end_of_day(): set_time(23, 59, 59). -/
def Pendulum.endOfDay (st : Pendulum) : Pendulum := st.setTime 23 59 59

/-- start_of_decade(): year − year % YEARS_PER_DECADE, Jan 1, 00:00:00. -/
def Pendulum.startOfDecade (st : Pendulum) : Pendulum :=
  st.setDateTime (st.dtv.year - st.dtv.year % 10) 1 1 0 0 0

/-- end_of_decade(): year − year % 10 + 10 − 1, Dec 31, 23:59:59. -/
def Pendulum.endOfDecade (st : Pendulum) : Pendulum :=
  st.setDateTime (st.dtv.year - st.dtv.year % 10 + 10 - 1) 12 31 23 59 59

/-- start_of_century(): year − 1 − (year − 1) % YEARS_PER_CENTURY + 1, Jan 1. -/
def Pendulum.startOfCentury (st : Pendulum) : Pendulum :=
  st.setDateTime (st.dtv.year - 1 - (st.dtv.year - 1) % 100 + 1) 1 1 0 0 0

/-- end_of_century(): year − 1 − (year − 1) % 100 + 100, Dec 31, 23:59:59. -/
def Pendulum.endOfCentury (st : Pendulum) : Pendulum :=
  st.setDateTime (st.dtv.year - 1 - (st.dtv.year - 1) % 100 + 100) 12 31 23 59 59

/-- day_of_week property: int(self.format('%w')), Sunday = 0. -/
def Pendulum.dayOfWeek (st : Pendulum) : Int :=
  toOrdinal st.dtv.year st.dtv.month st.dtv.day % 7

/-- set_timezone(): self._tz = zone; self._datetime =
self._datetime.astimezone(zone). astimezone converts through UTC: the new
offset is the one in force at the instant, and the civil fields are shifted by
the offset difference (exactly CPython datetime.astimezone + pytz fromutc). -/
def Pendulum.setTimezone (z : Zone) (st : Pendulum) : Pendulum :=
  let o := z.offsetAt st.instant
  { dtv := addDeltaMicros st.dtv ((o - st.off) * 60000000), off := o, tz := z }

/-- copy(): instance(self._datetime) re-runs the constructor on the civil
fields, re-localizing them through tz.localize; the civil fields themselves
are preserved and the zone is shared. -/
def Pendulum.copy (st : Pendulum) : Pendulum :=
  { dtv := st.dtv, off := st.tz.localOffsetFor st.dtv, tz := st.tz }

/-- Body of the while loop of next(): step one day forward until the weekday
matches. The loop is bounded: for a weekday target in [0, 7) it finishes in at
most 6 steps after the first check, so fuel 7 is exact. -/
def nextAux : Nat → Int → Pendulum → Pendulum
  | 0, _, st => st
  | fuel + 1, t, st => if st.dayOfWeek = t then st else nextAux fuel t st.addDay

/-- next(day_of_week): from start-of-day plus one day, step forward one day at
a time until day_of_week matches (default target: the current weekday). -/
def Pendulum.next (t? : Option Int) (st : Pendulum) : Pendulum :=
  let t := t?.getD st.dayOfWeek
  nextAux 7 t st.startOfDay.addDay

/-- Modelled from the spec: the hybrid `day` attribute
(src/pendulum/utils.py, hybrid_property, is not under src/): called with a
value it replaces the day-of-month field of the underlying datetime and
returns the instance (spec 4.4: first_of_month with no target sets day = 1). -/
def Pendulum.setDay (d : Int) (st : Pendulum) : Pendulum :=
  { st with dtv := { st.dtv with day := d } }

/-- Fixed-fuel chunking of a flat day list into week rows of seven
(calendar.monthdayscalendar). -/
def chunkWeeks : Nat → List Nat → List (List Nat)
  | 0, _ => []
  | _, [] => []
  | fuel + 1, l => l.take 7 :: chunkWeeks fuel (l.drop 7)

/-- calendar.monthcalendar(y, m): the month as Monday-first week rows with
zeroes outside the month (firstweekday is the default, Monday). -/
def monthcal (y m : Int) : List (List Nat) :=
  let w := ((toOrdinal y m 1 - 1) % 7).toNat
  let n := (daysInMonth y m).toNat
  let cells := List.replicate w 0 ++ List.range' 1 n ++
    List.replicate (((0 : Int) - w - n) % 7).toNat 0
  chunkWeeks cells.length cells

/-- Day-of-month chosen by first_of_month: column `col` of week row 0 if
populated, else of week row 1. -/
def fpick (grid : List (List Nat)) (col : Nat) : Nat :=
  let r0 := (grid.getD 0 []).getD col 0
  if 0 < r0 then r0 else (grid.getD 1 []).getD col 0

/-- Day-of-month chosen by last_of_month: column `col` of the last week row if
populated, else of the second-to-last row. -/
def lpick (grid : List (List Nat)) (col : Nat) : Nat :=
  let rl := (grid.getD (grid.length - 1) []).getD col 0
  if 0 < rl then rl else (grid.getD (grid.length - 2) []).getD col 0

/-- first_of_month(day_of_week): start_of_day, then day = 1 when no target;
otherwise pick from the month grid at column (day_of_week − 1) % 7. -/
def Pendulum.firstOfMonth (t? : Option Int) (st : Pendulum) : Pendulum :=
  let st1 := st.startOfDay
  match t? with
  | none => st1.setDay 1
  | some t =>
    let grid := monthcal st1.dtv.year st1.dtv.month
    let col := ((t - 1) % 7).toNat
    st1.setDay (fpick grid col : Int)

/-- last_of_month(day_of_week): start_of_day, then day = days_in_month when no
target; otherwise pick from the last rows of the month grid. -/
def Pendulum.lastOfMonth (t? : Option Int) (st : Pendulum) : Pendulum :=
  let st1 := st.startOfDay
  match t? with
  | none => st1.setDay (daysInMonth st1.dtv.year st1.dtv.month)
  | some t =>
    let grid := monthcal st1.dtv.year st1.dtv.month
    let col := ((t - 1) % 7).toNat
    st1.setDay (lpick grid col : Int)

/-- Occurrence probe of nth_of_month for nth ≥ 2: a copy aligned to the first
day of the month, then next(day_of_week) the computed number of times (one
fewer when the month already starts on the target weekday). -/
def nthProbe (st : Pendulum) (nth t : Int) : Pendulum :=
  let dt0 := st.copy.firstOfMonth none
  (Pendulum.next (some t))^[(nth - (if dt0.dayOfWeek = t then 1 else 0)).toNat] dt0

/-- nth_of_month(nth, day_of_week): nth = 1 delegates to first_of_month; else
step a copy and compare its '%Y-%m' label (equivalently, the (year, month)
pair) with the one recorded before stepping; on overflow return the False
sentinel with the receiver untouched, else set the receiver's day and
start_of_day. -/
def Pendulum.nthOfMonth (nth t : Int) (st : Pendulum) : Pendulum × Bool :=
  if nth = 1 then (st.firstOfMonth (some t), true)
  else
    let dt0 := st.copy.firstOfMonth none
    let dt1 := nthProbe st nth t
    if dt1.dtv.year = dt0.dtv.year ∧ dt1.dtv.month = dt0.dtv.month then
      ((st.setDay dt1.dtv.day).startOfDay, true)
    else (st, false)

/-- Two-digit zero-padded decimal rendering ('{:02d}' for nonnegative input). -/
def pad2 (n : Nat) : String := if n < 10 then "0" ++ toString n else toString n

/-- Renderer of the custom 'P' token inside _strftime: the UTC offset as
±HH:MM. The offset of a pytz zone is a whole number of minutes;
total_seconds()/60 recovers it exactly, and the sign is '+' exactly when that
minute count is strictly positive. -/
def strfP (st : Pendulum) : String :=
  let minutes := (60 * st.off) / 60
  let sign := if 0 < minutes then "+" else "-"
  let a := minutes.natAbs
  sign ++ pad2 (a / 60) ++ ":" ++ pad2 (a % 60)

/-- PendulumException value raised by _strftime on an unknown custom token. -/
structure PendulumExc where
  msg : String
deriving DecidableEq, Repr

/-- Handler _strftime for custom format tokens: only 'P' is known; any other
token raises PendulumException('Unknown formatter %...'). -/
def strftimeCustom (st : Pendulum) (tok : List Char) : Except PendulumExc String :=
  if tok = ['P'] then .ok (strfP st)
  else .error ⟨"Unknown formatter %" ++ String.mk tok⟩

/-- Splitting of a format string at the non-overlapping occurrences of the
custom token marker "%P" (the custom token set is exactly ['P']). The greedy
regex (.*)(?:%(P))(.*) of strftime cuts at the last such occurrence, i.e.
between the joined init of this list and its last element. -/
def splitPctP : List Char → List (List Char)
  | [] => [[]]
  | '%' :: 'P' :: rest => [] :: splitPctP rest
  | c :: rest =>
    match splitPctP rest with
    | [] => [[c]]
    | h :: t => (c :: h) :: t

/-- Inverse gluing of split segments with the "%P" marker. -/
def joinPctP : List (List Char) → List Char
  | [] => []
  | [a] => a
  | a :: rest => a ++ '%' :: 'P' :: joinPctP rest

/-- strftime(): an empty format renders ''; when the custom-token regex
matches (group 1 greedy, so the cut is at the last "%P"), recurse on the two
sides around the handled token; otherwise delegate the whole format to the
generic renderer `g` (self._datetime.strftime). Fuel bounds the recursion. -/
def strftimeAux (g : List Char → List Char) (st : Pendulum) :
    Nat → List Char → Except PendulumExc (List Char)
  | _, [] => .ok []
  | 0, fmt => .ok (g fmt)
  | fuel + 1, fmt =>
    let parts := splitPctP fmt
    if parts.length ≤ 1 then .ok (g fmt)
    else do
      let pre ← strftimeAux g st fuel (joinPctP parts.dropLast)
      let mid ← strftimeCustom st ['P']
      let post ← strftimeAux g st fuel (parts.getLastD [])
      .ok (pre ++ mid.data ++ post)

/-- format()/strftime() with the generic template renderer `g` abstracted. -/
def Pendulum.strftime (g : List Char → List Char) (st : Pendulum)
    (fmt : List Char) : Except PendulumExc (List Char) :=
  strftimeAux g st (fmt.length + 1) fmt

end PendulumSpec

namespace PendulumSpec

/-- Arithmetic characterization of the leap-year test. -/
theorem isLeap_iff (y : Int) :
    isLeap y = true ↔ ((y % 4 = 0 ∧ ¬ y % 100 = 0) ∨ y % 400 = 0) := by
  simp [isLeap]

/-- Every month length is at least 1. -/
theorem daysInMonth_pos (y m : Int) : 1 ≤ daysInMonth y m := by
  unfold daysInMonth
  split_ifs <;> norm_num

/-- Month lengths are 28, 29, 30 or 31. -/
theorem daysInMonth_cases (y m : Int) : daysInMonth y m = 28 ∨ daysInMonth y m = 29 ∨
    daysInMonth y m = 30 ∨ daysInMonth y m = 31 := by
  unfold daysInMonth
  split_ifs <;> norm_num

/-- February has 29 days in leap years and 28 otherwise. -/
theorem daysInMonth_feb (y : Int) :
    daysInMonth y 2 = if isLeap y then 29 else 28 := by
  unfold daysInMonth
  norm_num

/-- Crossing a year boundary adds 366 days for leap years and 365 otherwise. -/
theorem daysBeforeYear_succ (y : Int) :
    daysBeforeYear (y + 1) = daysBeforeYear y + (if isLeap y then 366 else 365) := by
  have h := isLeap_iff y
  unfold daysBeforeYear
  by_cases hl : isLeap y = true
  · rw [if_pos hl]
    have := h.mp hl
    omega
  · rw [if_neg hl]
    have hn : ¬ ((y % 4 = 0 ∧ ¬ y % 100 = 0) ∨ y % 400 = 0) := fun hc => hl (h.mpr hc)
    omega

/-- Cumulative month days step by the month length. -/
theorem daysBeforeMonth_succ (y m : Int) (h1 : 1 ≤ m) (h2 : m ≤ 11) :
    daysBeforeMonth y (m + 1) = daysBeforeMonth y m + daysInMonth y m := by
  unfold daysBeforeMonth dbmBase daysInMonth
  interval_cases m <;> by_cases hl : isLeap y = true <;> simp [hl]

end PendulumSpec

namespace PendulumSpec

/-- Ordinal of the date fields of a civil datetime. -/
def ordOf (c : DateTimeV) : Int := toOrdinal c.year c.month c.day

/-- Stepping to the next day advances the ordinal by one. -/
theorem ordOf_nextDay (c : DateTimeV) (hv : ValidDT c) :
    ordOf (nextDay c) = ordOf c + 1 := by
  obtain ⟨h1, h2, h3, h4, _⟩ := hv
  unfold nextDay
  split_ifs with ha hb
  · simp [ordOf, toOrdinal]
    ring
  · have hd : c.day = daysInMonth c.year c.month := le_antisymm h4 (not_lt.mp ha)
    simp [ordOf, toOrdinal, daysBeforeMonth_succ c.year c.month h1 (by omega)]
    omega
  · have hd : c.day = daysInMonth c.year c.month := le_antisymm h4 (not_lt.mp ha)
    have hm : c.month = 12 := le_antisymm h2 (not_lt.mp hb)
    have h31 : daysInMonth c.year 12 = 31 := by norm_num [daysInMonth]
    simp [ordOf, toOrdinal, daysBeforeYear_succ c.year, daysBeforeMonth, dbmBase, hm] at *
    by_cases hl : isLeap c.year = true <;> simp [hl] at * <;> omega

/-- Stepping to the next day preserves validity; time fields are untouched. -/
theorem validDT_nextDay (c : DateTimeV) (hv : ValidDT c) : ValidDT (nextDay c) := by
  have hA := daysInMonth_pos c.year (c.month + 1)
  have hB := daysInMonth_pos (c.year + 1) 1
  unfold ValidDT nextDay at *
  split_ifs with ha hb <;> simp_all <;> omega

end PendulumSpec

namespace PendulumSpec

/-- Stepping to the previous day decreases the ordinal by one. -/
theorem ordOf_prevDay (c : DateTimeV) (hv : ValidDT c) :
    ordOf (prevDay c) = ordOf c - 1 := by
  obtain ⟨h1, h2, h3, h4, _⟩ := hv
  unfold prevDay
  split_ifs with ha hb
  · simp [ordOf, toOrdinal]
    ring
  · have hd : c.day = 1 := by omega
    have hstep := daysBeforeMonth_succ c.year (c.month - 1) (by omega) (by omega)
    simp only [sub_add_cancel] at hstep
    simp [ordOf, toOrdinal, hstep, hd]
    ring
  · have hd : c.day = 1 := by omega
    have hm : c.month = 1 := by omega
    have hy := daysBeforeYear_succ (c.year - 1)
    simp only [sub_add_cancel] at hy
    simp [ordOf, toOrdinal, hy, hd, hm, daysBeforeMonth, dbmBase]
    by_cases hl : isLeap (c.year - 1) = true <;> simp [hl] <;> omega

/-- Stepping to the previous day preserves validity. -/
theorem validDT_prevDay (c : DateTimeV) (hv : ValidDT c) : ValidDT (prevDay c) := by
  have hA := daysInMonth_pos c.year (c.month - 1)
  have hB : daysInMonth (c.year - 1) 12 = 31 := by norm_num [daysInMonth]
  unfold ValidDT prevDay at *
  split_ifs with ha hb <;> simp_all <;> omega

/-- Iterated next-day stepping: validity is preserved and the ordinal advances
by the step count. -/
theorem iterate_nextDay_spec (k : Nat) (c : DateTimeV) (hv : ValidDT c) :
    ValidDT (nextDay^[k] c) ∧ ordOf (nextDay^[k] c) = ordOf c + k := by
  induction k generalizing c with
  | zero => simpa using hv
  | succ n ih =>
    rw [Function.iterate_succ_apply]
    obtain ⟨hv2, he⟩ := ih (nextDay c) (validDT_nextDay c hv)
    refine ⟨hv2, ?_⟩
    rw [he, ordOf_nextDay c hv]
    push_cast
    ring

/-- Iterated previous-day stepping. -/
theorem iterate_prevDay_spec (k : Nat) (c : DateTimeV) (hv : ValidDT c) :
    ValidDT (prevDay^[k] c) ∧ ordOf (prevDay^[k] c) = ordOf c - k := by
  induction k generalizing c with
  | zero => simpa using hv
  | succ n ih =>
    rw [Function.iterate_succ_apply]
    obtain ⟨hv2, he⟩ := ih (prevDay c) (validDT_prevDay c hv)
    refine ⟨hv2, ?_⟩
    rw [he, ordOf_prevDay c hv]
    push_cast
    ring

/-- addDays shifts the ordinal by exactly `k` and preserves validity. -/
theorem addDays_spec (k : Int) (c : DateTimeV) (hv : ValidDT c) :
    ValidDT (addDays k c) ∧ ordOf (addDays k c) = ordOf c + k := by
  unfold addDays
  split_ifs with h0
  · obtain ⟨hv2, he⟩ := iterate_nextDay_spec k.toNat c hv
    exact ⟨hv2, by rw [he]; omega⟩
  · obtain ⟨hv2, he⟩ := iterate_prevDay_spec (-k).toNat c hv
    exact ⟨hv2, by rw [he]; omega⟩

/-- Time-of-day bounds from validity. -/
theorem timeOfDayMicros_bounds (c : DateTimeV) (hv : ValidDT c) :
    0 ≤ timeOfDayMicros c ∧ timeOfDayMicros c < muDay := by
  obtain ⟨h1, h2, h3, h4, h5, h6, h7, h8, h9, h10, h11, h12⟩ := hv
  unfold timeOfDayMicros muDay
  omega

/-- Unfolding equation for addDeltaMicros. -/
theorem addDeltaMicros_eq (c : DateTimeV) (delta : Int) :
    addDeltaMicros c delta =
      { addDays ((timeOfDayMicros c + delta) / muDay) c with
        hour := (timeOfDayMicros c + delta) % muDay / 3600000000,
        minute := ((timeOfDayMicros c + delta) % muDay % 3600000000) / 60000000,
        second := ((timeOfDayMicros c + delta) % muDay % 60000000) / 1000000,
        microsecond := (timeOfDayMicros c + delta) % muDay % 1000000 } := rfl

/-- Timedelta addition is exact: the microsecond count shifts by delta and the
result is a valid civil datetime. -/
theorem addDeltaMicros_spec (c : DateTimeV) (delta : Int) (hv : ValidDT c) :
    ValidDT (addDeltaMicros c delta) ∧
      naiveMicros (addDeltaMicros c delta) = naiveMicros c + delta := by
  rw [addDeltaMicros_eq]
  obtain ⟨hva, hoa⟩ := addDays_spec ((timeOfDayMicros c + delta) / muDay) c hv
  have hmod : muDay * ((timeOfDayMicros c + delta) / muDay) +
      (timeOfDayMicros c + delta) % muDay = timeOfDayMicros c + delta :=
    Int.ediv_add_emod _ _
  have hr0 : 0 ≤ (timeOfDayMicros c + delta) % muDay :=
    Int.emod_nonneg _ (by norm_num [muDay])
  have hr1 : (timeOfDayMicros c + delta) % muDay < muDay :=
    Int.emod_lt_of_pos _ (by norm_num [muDay])
  set t := timeOfDayMicros c + delta with ht
  set c2 := addDays (t / muDay) c with hc2
  unfold ValidDT at hva ⊢
  constructor
  · simp only [muDay] at hr0 hr1 ⊢
    exact ⟨hva.1, hva.2.1, hva.2.2.1, hva.2.2.2.1, by omega, by omega, by omega,
      by omega, by omega, by omega, by omega, by omega⟩
  · unfold naiveMicros timeOfDayMicros
    unfold ordOf at hoa
    rw [hoa]
    unfold timeOfDayMicros at ht
    simp only [muDay] at hmod hr0 hr1 ⊢
    omega

end PendulumSpec

namespace PendulumSpec

/-- Each fix stage preserves the total: m * carry + fixed = x. -/
theorem fixStep_total (x bound m : Int) :
    m * (fixStep x bound m).1 + (fixStep x bound m).2 = x := by
  unfold fixStep signDivmod
  split_ifs with h1 h2
  · exact Int.ediv_add_emod x m
  · calc m * -(-x / m) + -(-x % m) = -(m * (-x / m) + -x % m) := by ring
      _ = -(-x) := by rw [Int.ediv_add_emod]
      _ = x := neg_neg x
  · simp

/-- Carry component of a fix stage applied to a negated input. -/
theorem fixStep_neg_fst (x bound m : Int) :
    (fixStep (-x) bound m).1 = -(fixStep x bound m).1 := by
  unfold fixStep signDivmod
  rw [abs_neg]
  by_cases hb : bound < |x|
  · rw [if_pos hb, if_pos hb]
    rcases lt_trichotomy x 0 with hx | hx | hx
    · rw [if_pos (by omega : (0:Int) ≤ -x), if_neg (by omega : ¬ (0:Int) ≤ x)]
      simp
    · subst hx
      simp
    · rw [if_neg (by omega : ¬ (0:Int) ≤ -x), if_pos (by omega : (0:Int) ≤ x)]
      simp
  · rw [if_neg hb, if_neg hb]
    simp

/-- Value component of a fix stage applied to a negated input. -/
theorem fixStep_neg_snd (x bound m : Int) :
    (fixStep (-x) bound m).2 = -(fixStep x bound m).2 := by
  unfold fixStep signDivmod
  rw [abs_neg]
  by_cases hb : bound < |x|
  · rw [if_pos hb, if_pos hb]
    rcases lt_trichotomy x 0 with hx | hx | hx
    · rw [if_pos (by omega : (0:Int) ≤ -x), if_neg (by omega : ¬ (0:Int) ≤ x)]
      simp
    · subst hx
      simp
    · rw [if_neg (by omega : ¬ (0:Int) ≤ -x), if_pos (by omega : (0:Int) ≤ x)]
      simp
  · rw [if_neg hb, if_neg hb]

/-- A fix stage on a value already within the bound is the identity. -/
theorem fixStep_noop (x bound m : Int) (h : |x| ≤ bound) :
    fixStep x bound m = (0, x) := by
  unfold fixStep
  rw [if_neg (not_lt.mpr h)]

/-- The value component of a fix stage with modulus bound + 1 stays within the
bound. -/
theorem fixStep_bounded (x bound m : Int) (hm : m = bound + 1) (hb : 0 ≤ bound) :
    |(fixStep x bound m).2| ≤ bound := by
  unfold fixStep signDivmod
  have h1 : 0 < m := by omega
  split_ifs with ha hb2
  · have := Int.emod_nonneg x (by omega : m ≠ 0)
    have := Int.emod_lt_of_pos x h1
    rw [abs_of_nonneg (by omega)]
    omega
  · have := Int.emod_nonneg (-x) (by omega : m ≠ 0)
    have := Int.emod_lt_of_pos (-x) h1
    rw [abs_of_nonpos (by omega)]
    omega
  · exact not_lt.mp ha

end PendulumSpec

namespace PendulumSpec

/-- Total fixed-length duration (in microseconds) carried by the timedelta
part of a relativedelta. -/
def totalMicros (r : RelDelta) : Int :=
  r.days * muDay + r.hours * 3600000000 + r.minutes * 60000000 +
    r.seconds * 1000000 + r.microseconds

/-- The _fix normalization preserves the total fixed-length duration. -/
theorem mkRelDelta_total (ys mo ws ds h mi s us : Int) (wd : Option (Fin 7)) :
    totalMicros (mkRelDelta ys mo ws ds h mi s us wd) =
      (ds + ws * 7) * muDay + h * 3600000000 + mi * 60000000 + s * 1000000 + us := by
  have t1 := fixStep_total us 999999 1000000
  have t2 := fixStep_total (s + (fixStep us 999999 1000000).1) 59 60
  have t3 := fixStep_total
    (mi + (fixStep (s + (fixStep us 999999 1000000).1) 59 60).1) 59 60
  have t4 := fixStep_total
    (h + (fixStep (mi + (fixStep (s + (fixStep us 999999 1000000).1) 59 60).1) 59 60).1) 23 24
  simp only [totalMicros, mkRelDelta, muDay] at *
  omega

/-- The normalized components respect the _fix bounds. -/
theorem mkRelDelta_bounded (ys mo ws ds h mi s us : Int) (wd : Option (Fin 7)) :
    |(mkRelDelta ys mo ws ds h mi s us wd).months| ≤ 11 ∧
    |(mkRelDelta ys mo ws ds h mi s us wd).hours| ≤ 23 ∧
    |(mkRelDelta ys mo ws ds h mi s us wd).minutes| ≤ 59 ∧
    |(mkRelDelta ys mo ws ds h mi s us wd).seconds| ≤ 59 ∧
    |(mkRelDelta ys mo ws ds h mi s us wd).microseconds| ≤ 999999 := by
  simp only [mkRelDelta]
  exact ⟨fixStep_bounded _ _ _ rfl (by norm_num), fixStep_bounded _ _ _ rfl (by norm_num),
    fixStep_bounded _ _ _ rfl (by norm_num), fixStep_bounded _ _ _ rfl (by norm_num),
    fixStep_bounded _ _ _ rfl (by norm_num)⟩

/-- Rebuilding a relativedelta whose components already satisfy the _fix
bounds is the identity (no weeks, carries all vanish). -/
theorem mkRelDelta_of_bounded (r : RelDelta)
    (hmo : |r.months| ≤ 11) (hh : |r.hours| ≤ 23) (hmi : |r.minutes| ≤ 59)
    (hs : |r.seconds| ≤ 59) (hus : |r.microseconds| ≤ 999999) :
    mkRelDelta r.years r.months 0 r.days r.hours r.minutes r.seconds
      r.microseconds r.wday = r := by
  have e1 := fixStep_noop _ 999999 1000000 hus
  have e2 := fixStep_noop _ 59 60 hs
  have e3 := fixStep_noop _ 59 60 hmi
  have e4 := fixStep_noop _ 23 24 hh
  have e5 := fixStep_noop _ 11 12 hmo
  simp only [mkRelDelta, e1, e2, e3, e4, e5, add_zero, zero_mul, mul_zero]

/-- The _fix pipeline is odd: normalizing negated inputs negates every
normalized component. -/
theorem mkRelDelta_neg (ys mo ws ds h mi s us : Int) (wd : Option (Fin 7)) :
    mkRelDelta (-ys) (-mo) (-ws) (-ds) (-h) (-mi) (-s) (-us) wd =
      ⟨-(mkRelDelta ys mo ws ds h mi s us wd).years,
       -(mkRelDelta ys mo ws ds h mi s us wd).months,
       -(mkRelDelta ys mo ws ds h mi s us wd).days,
       -(mkRelDelta ys mo ws ds h mi s us wd).hours,
       -(mkRelDelta ys mo ws ds h mi s us wd).minutes,
       -(mkRelDelta ys mo ws ds h mi s us wd).seconds,
       -(mkRelDelta ys mo ws ds h mi s us wd).microseconds, wd⟩ := by
  simp only [mkRelDelta, neg_mul, ← neg_add, fixStep_neg_fst, fixStep_neg_snd]

/-- Negating a constructed relativedelta equals constructing it from negated
arguments. -/
theorem negRel_mkRelDelta (ys mo ws ds h mi s us : Int) (wd : Option (Fin 7)) :
    negRel (mkRelDelta ys mo ws ds h mi s us wd) =
      mkRelDelta (-ys) (-mo) (-ws) (-ds) (-h) (-mi) (-s) (-us) wd := by
  obtain ⟨b1, b2, b3, b4, b5⟩ := mkRelDelta_bounded ys mo ws ds h mi s us wd
  rw [mkRelDelta_neg ys mo ws ds h mi s us wd]
  unfold negRel
  have hwd : (mkRelDelta ys mo ws ds h mi s us wd).wday = wd := rfl
  rw [hwd]
  exact mkRelDelta_of_bounded
    ⟨-(mkRelDelta ys mo ws ds h mi s us wd).years,
     -(mkRelDelta ys mo ws ds h mi s us wd).months,
     -(mkRelDelta ys mo ws ds h mi s us wd).days,
     -(mkRelDelta ys mo ws ds h mi s us wd).hours,
     -(mkRelDelta ys mo ws ds h mi s us wd).minutes,
     -(mkRelDelta ys mo ws ds h mi s us wd).seconds,
     -(mkRelDelta ys mo ws ds h mi s us wd).microseconds, wd⟩
    (by simpa using b1) (by simpa using b2) (by simpa using b3)
    (by simpa using b4) (by simpa using b5)

end PendulumSpec

namespace PendulumSpec

attribute [ext] DateTimeV

/-- Time fields are untouched by a pure date step. -/
theorem nextDay_time (c : DateTimeV) :
    (nextDay c).hour = c.hour ∧ (nextDay c).minute = c.minute ∧
    (nextDay c).second = c.second ∧ (nextDay c).microsecond = c.microsecond := by
  unfold nextDay
  split_ifs <;> exact ⟨rfl, rfl, rfl, rfl⟩

/-- Adding a zero timedelta is the identity on valid civil datetimes. -/
theorem addDeltaMicros_zero (c : DateTimeV) (hv : ValidDT c) :
    addDeltaMicros c 0 = c := by
  rw [addDeltaMicros_eq]
  obtain ⟨ht0, ht1⟩ := timeOfDayMicros_bounds c hv
  have hq : (timeOfDayMicros c + 0) / muDay = 0 := by
    simp only [muDay] at *
    omega
  have hr : (timeOfDayMicros c + 0) % muDay = timeOfDayMicros c := by
    simp only [muDay] at *
    omega
  rw [hq, hr]
  have ha : addDays 0 c = c := by
    unfold addDays
    norm_num
  rw [ha]
  obtain ⟨h1, h2, h3, h4, h5, h6, h7, h8, h9, h10, h11, h12⟩ := hv
  unfold timeOfDayMicros at *
  ext <;> simp <;> omega

/-- Adding a timedelta of exactly one day steps the date and restores the time
fields. -/
theorem addDeltaMicros_day (c : DateTimeV) (hv : ValidDT c) :
    addDeltaMicros c muDay = nextDay c := by
  rw [addDeltaMicros_eq]
  obtain ⟨ht0, ht1⟩ := timeOfDayMicros_bounds c hv
  have hq : (timeOfDayMicros c + muDay) / muDay = 1 := by
    simp only [muDay] at *
    omega
  have hr : (timeOfDayMicros c + muDay) % muDay = timeOfDayMicros c := by
    simp only [muDay] at *
    omega
  rw [hq, hr]
  have ha : addDays 1 c = nextDay c := by
    unfold addDays
    norm_num
  rw [ha]
  obtain ⟨hth, htm, hts, htu⟩ := nextDay_time c
  obtain ⟨h1, h2, h3, h4, h5, h6, h7, h8, h9, h10, h11, h12⟩ := hv
  unfold timeOfDayMicros at *
  ext <;> simp [hth, htm, hts, htu] <;> omega

/-- C3 helper: the delta built by sub equals the delta built by add on negated
arguments, so the two civil results coincide. -/
theorem sub_eq_add_neg_dtv (c : DateTimeV) (ys mo ws ds h mi s us : Int)
    (wd : Option (Fin 7)) :
    applyRel c (negRel (mkRelDelta ys mo ws ds h mi s us wd)) =
      applyRel c (mkRelDelta (-ys) (-mo) (-ws) (-ds) (-h) (-mi) (-s) (-us) wd) := by
  rw [negRel_mkRelDelta]

/-- C3: for every Moment and every Delta (years, months, weeks, days, hours,
minutes, seconds, microseconds, optional weekday anchor), sub applied with
those component values produces exactly the same result as add applied with
every numeric component's sign inverted; the weekday anchor carries no sign
and is passed through unchanged, exactly as relativedelta.__neg__ does. -/
theorem claim_C3 (st : Pendulum) (ys mo ws ds h mi s us : Int)
    (wd : Option (Fin 7)) :
    st.sub ys mo ws ds h mi s us wd =
      st.add (-ys) (-mo) (-ws) (-ds) (-h) (-mi) (-s) (-us) wd := by
  unfold Pendulum.sub Pendulum.add
  rw [sub_eq_add_neg_dtv]

/-- C5: start_of_decade moves to Jan 1 00:00:00 of year (year − year mod 10),
end_of_decade to Dec 31 23:59:59 of that start year + 9; start_of_century to
Jan 1 00:00:00 of year ((year − 1) − (year − 1) mod 100 + 1), end_of_century
to Dec 31 23:59:59 of that start year + 99 (so 2024 gives 2020/2029 and
2001/2100): century numbering is 1-based, decade numbering a 0-based floor. -/
theorem claim_C5 (st : Pendulum) :
    st.startOfDecade.dtv.year = st.dtv.year - st.dtv.year % 10 ∧
    st.startOfDecade.dtv.month = 1 ∧ st.startOfDecade.dtv.day = 1 ∧
    st.startOfDecade.dtv.hour = 0 ∧ st.startOfDecade.dtv.minute = 0 ∧
    st.startOfDecade.dtv.second = 0 ∧
    st.endOfDecade.dtv.year = st.startOfDecade.dtv.year + 9 ∧
    st.endOfDecade.dtv.month = 12 ∧ st.endOfDecade.dtv.day = 31 ∧
    st.endOfDecade.dtv.hour = 23 ∧ st.endOfDecade.dtv.minute = 59 ∧
    st.endOfDecade.dtv.second = 59 ∧
    st.startOfCentury.dtv.year = st.dtv.year - 1 - (st.dtv.year - 1) % 100 + 1 ∧
    st.startOfCentury.dtv.month = 1 ∧ st.startOfCentury.dtv.day = 1 ∧
    st.startOfCentury.dtv.hour = 0 ∧ st.startOfCentury.dtv.minute = 0 ∧
    st.startOfCentury.dtv.second = 0 ∧
    st.endOfCentury.dtv.year = st.startOfCentury.dtv.year + 99 ∧
    st.endOfCentury.dtv.month = 12 ∧ st.endOfCentury.dtv.day = 31 ∧
    st.endOfCentury.dtv.hour = 23 ∧ st.endOfCentury.dtv.minute = 59 ∧
    st.endOfCentury.dtv.second = 59 := by
  refine ⟨rfl, rfl, rfl, rfl, rfl, rfl, ?_, rfl, rfl, rfl, rfl, rfl,
    rfl, rfl, rfl, rfl, rfl, rfl, ?_, rfl, rfl, rfl, rfl, rfl⟩ <;>
    (simp [Pendulum.startOfDecade, Pendulum.endOfDecade, Pendulum.startOfCentury,
      Pendulum.endOfCentury, Pendulum.setDateTime, Pendulum.setDate, Pendulum.setTime]
     try omega)

end PendulumSpec

namespace PendulumSpec

/-- Fixed UTC zone used in concrete instantiations. -/
def utcZone : Zone := ⟨fun _ => 0, fun _ => 0⟩

/-- Fixed UTC−05:00 zone used in concrete instantiations. -/
def minus300Zone : Zone := ⟨fun _ => -300, fun _ => -300⟩

/-- Concrete valid moment 2016-01-31 10:20:30.123456 UTC (leap year). -/
def wJan31leap : Pendulum := ⟨⟨2016, 1, 31, 10, 20, 30, 123456⟩, 0, utcZone⟩

/-- Concrete valid moment 2015-01-31 10:20:30.123456 UTC (non-leap year). -/
def wJan31plain : Pendulum := ⟨⟨2015, 1, 31, 10, 20, 30, 123456⟩, 0, utcZone⟩

/-- C6: set_timezone leaves the canonical absolute instant unchanged (the same
point on the physical timeline), installs the new zone, and only re-expresses
the civil fields: the new attached offset is the zone's offset at that
instant, and the new wall-clock reading is the instant shifted by exactly that
offset. -/
theorem claim_C6 (st : Pendulum) (hv : ValidDT st.dtv) (z : Zone) :
    (st.setTimezone z).instant = st.instant ∧
    (st.setTimezone z).tz = z ∧
    (st.setTimezone z).off = z.offsetAt st.instant ∧
    naiveMicros (st.setTimezone z).dtv =
      st.instant + z.offsetAt st.instant * 60000000 ∧
    ValidDT (st.setTimezone z).dtv := by
  obtain ⟨hva, hmi⟩ :=
    addDeltaMicros_spec st.dtv ((z.offsetAt st.instant - st.off) * 60000000) hv
  refine ⟨?_, rfl, rfl, ?_, hva⟩
  · show naiveMicros (addDeltaMicros st.dtv ((z.offsetAt st.instant - st.off) * 60000000)) -
      z.offsetAt st.instant * 60000000 = st.instant
    rw [hmi]
    unfold Pendulum.instant
    ring
  · show naiveMicros (addDeltaMicros st.dtv ((z.offsetAt st.instant - st.off) * 60000000)) =
      st.instant + z.offsetAt st.instant * 60000000
    rw [hmi]
    unfold Pendulum.instant
    ring

/-- Witness for C6 at a concrete moment and zone. -/
theorem claim_C6_witness :
    (wJan31leap.setTimezone minus300Zone).instant = wJan31leap.instant :=
  (claim_C6 wJan31leap (by decide) minus300Zone).1

/-- Fixed-length-only deltas reduce to a single exact timedelta addition. -/
theorem applyRel_fixedOnly (c : DateTimeV) (hv : ValidDT c) (h mi s us : Int) :
    applyRel c (mkRelDelta 0 0 0 0 h mi s us none) =
      addDeltaMicros c (h * 3600000000 + mi * 60000000 + s * 1000000 + us) := by
  have htot := mkRelDelta_total 0 0 0 0 h mi s us none
  unfold totalMicros at htot
  show addDeltaMicros
      { c with year := c.year + (mkRelDelta 0 0 0 0 h mi s us none).years,
               month := c.month,
               day := min (daysInMonth (c.year + (mkRelDelta 0 0 0 0 h mi s us none).years)
                 c.month) c.day }
      ((mkRelDelta 0 0 0 0 h mi s us none).days * muDay +
        (mkRelDelta 0 0 0 0 h mi s us none).hours * 3600000000 +
        (mkRelDelta 0 0 0 0 h mi s us none).minutes * 60000000 +
        (mkRelDelta 0 0 0 0 h mi s us none).seconds * 1000000 +
        (mkRelDelta 0 0 0 0 h mi s us none).microseconds) =
    addDeltaMicros c (h * 3600000000 + mi * 60000000 + s * 1000000 + us)
  rw [show (mkRelDelta 0 0 0 0 h mi s us none).years = 0 from rfl]
  rw [Int.add_zero, min_eq_right hv.2.2.2.1, htot]
  show addDeltaMicros c ((0 + 0 * 7) * muDay + h * 3600000000 + mi * 60000000 +
    s * 1000000 + us) = addDeltaMicros c (h * 3600000000 + mi * 60000000 + s * 1000000 + us)
  congr 1
  ring

end PendulumSpec

namespace PendulumSpec

/-- C2 (amended): a delta of only fixed-length units advances the canonical
absolute instant by exactly the corresponding elapsed real time (so
add(hours=24) moves the timestamp by exactly 86400 seconds), but the civil
fields are NOT re-localized: the attached offset and the zone are left
untouched, and consequently add(hours=24) coincides with add(days=1) for every
Moment, DST transitions included. -/
theorem claim_C2 :
    (∀ (st : Pendulum), ValidDT st.dtv → ∀ h mi s us : Int,
      (st.add 0 0 0 0 h mi s us none).instant =
        st.instant + (h * 3600000000 + mi * 60000000 + s * 1000000 + us) ∧
      (st.add 0 0 0 0 h mi s us none).off = st.off ∧
      (st.add 0 0 0 0 h mi s us none).tz = st.tz ∧
      ValidDT (st.add 0 0 0 0 h mi s us none).dtv) ∧
    (∀ st : Pendulum, st.add 0 0 0 0 24 0 0 0 none = st.add 0 0 0 1 0 0 0 0 none) := by
  constructor
  · intro st hv h mi s us
    have hfix := applyRel_fixedOnly st.dtv hv h mi s us
    obtain ⟨hva, hmi2⟩ := addDeltaMicros_spec st.dtv
      (h * 3600000000 + mi * 60000000 + s * 1000000 + us) hv
    refine ⟨?_, rfl, rfl, ?_⟩
    · show naiveMicros (applyRel st.dtv (mkRelDelta 0 0 0 0 h mi s us none)) -
        st.off * 60000000 = st.instant + (h * 3600000000 + mi * 60000000 + s * 1000000 + us)
      rw [hfix, hmi2]
      unfold Pendulum.instant
      ring
    · show ValidDT (applyRel st.dtv (mkRelDelta 0 0 0 0 h mi s us none))
      rw [hfix]
      exact hva
  · intro st
    unfold Pendulum.add
    rw [show mkRelDelta 0 0 0 0 24 0 0 0 none = mkRelDelta 0 0 0 1 0 0 0 0 none from by decide]

/-- Witness for the quantified part of C2 at a concrete moment and delta. -/
theorem claim_C2_witness :
    (wJan31leap.add 0 0 0 0 5 4 3 2 none).instant =
      wJan31leap.instant + (5 * 3600000000 + 4 * 60000000 + 3 * 1000000 + 2) :=
  (claim_C2.1 wJan31leap (by decide) 5 4 3 2).1

/-- Cut instant of a DST spring-forward (2016-03-13 07:00 UTC on the ordinal
microsecond timeline, as in America/New_York). -/
def dstCut : Int := toOrdinal 2016 3 13 * muDay + 7 * 3600000000

/-- Zone with one DST transition: UTC−05:00 before the cut, UTC−04:00 after. -/
def dstZone : Zone := ⟨fun i => if i < dstCut then -300 else -240, fun _ => -300⟩

/-- Concrete moment 2016-03-12 12:00:00 at UTC−05:00 in dstZone, less than 24
hours before the transition. -/
def mDst : Pendulum := ⟨⟨2016, 3, 12, 12, 0, 0, 0⟩, -300, dstZone⟩

/-- Counterexample to C2 as stated: across a DST transition of its own zone
(the offset in force 24 hours later differs), add(hours=24) does NOT differ
from add(days=1) — the two results are identical — and the civil fields are
not re-localized: the attached offset disagrees with the zone's offset at the
resulting instant. -/
theorem claim_C2_counterexample :
    dstZone.offsetAt mDst.instant ≠ dstZone.offsetAt (mDst.instant + 24 * 3600000000) ∧
    mDst.add 0 0 0 0 24 0 0 0 none = mDst.add 0 0 0 1 0 0 0 0 none ∧
    (mDst.add 0 0 0 0 24 0 0 0 none).off ≠
      dstZone.offsetAt ((mDst.add 0 0 0 0 24 0 0 0 none).instant) := by
  refine ⟨by decide, ?_, by decide⟩
  unfold Pendulum.add
  rw [show mkRelDelta 0 0 0 0 24 0 0 0 none = mkRelDelta 0 0 0 1 0 0 0 0 none from by decide]

end PendulumSpec

namespace PendulumSpec

/-- add(days=1) on a valid civil datetime is exactly the Gregorian successor
day with the time fields kept. -/
theorem applyRel_days_one (c : DateTimeV) (hv : ValidDT c) :
    applyRel c (mkRelDelta 0 0 0 1 0 0 0 0 none) = nextDay c := by
  show addDeltaMicros
      { c with year := c.year + (mkRelDelta 0 0 0 1 0 0 0 0 none).years,
               month := c.month,
               day := min (daysInMonth (c.year + (mkRelDelta 0 0 0 1 0 0 0 0 none).years)
                 c.month) c.day }
      ((mkRelDelta 0 0 0 1 0 0 0 0 none).days * muDay +
        (mkRelDelta 0 0 0 1 0 0 0 0 none).hours * 3600000000 +
        (mkRelDelta 0 0 0 1 0 0 0 0 none).minutes * 60000000 +
        (mkRelDelta 0 0 0 1 0 0 0 0 none).seconds * 1000000 +
        (mkRelDelta 0 0 0 1 0 0 0 0 none).microseconds) = nextDay c
  rw [show (mkRelDelta 0 0 0 1 0 0 0 0 none).years = 0 from rfl]
  rw [Int.add_zero, min_eq_right hv.2.2.2.1]
  rw [show ((mkRelDelta 0 0 0 1 0 0 0 0 none).days * muDay +
        (mkRelDelta 0 0 0 1 0 0 0 0 none).hours * 3600000000 +
        (mkRelDelta 0 0 0 1 0 0 0 0 none).minutes * 60000000 +
        (mkRelDelta 0 0 0 1 0 0 0 0 none).seconds * 1000000 +
        (mkRelDelta 0 0 0 1 0 0 0 0 none).microseconds) = muDay from by decide]
  exact addDeltaMicros_day c hv

/-- add(months=1) from a January 31: the month is stepped and the day is
clamped to the length of February; nothing else changes. -/
theorem applyRel_month_jan31 (c : DateTimeV) (hv : ValidDT c)
    (hm : c.month = 1) (hd : c.day = 31) :
    applyRel c (mkRelDelta 0 1 0 0 0 0 0 0 none) =
      { c with month := 2, day := daysInMonth c.year 2 } := by
  rcases c with ⟨y, mo, d, hh, mi, ss, uu⟩
  simp only [] at hm hd
  subst hm
  subst hd
  obtain ⟨h1, h2, h3, h4, h5, h6, h7, h8, h9, h10, h11, h12⟩ := hv
  have hv2 : ValidDT ⟨y, 2, daysInMonth y 2, hh, mi, ss, uu⟩ :=
    ⟨by norm_num, by norm_num, daysInMonth_pos y 2, le_refl _,
      h5, h6, h7, h8, h9, h10, h11, h12⟩
  have hdim : daysInMonth y 2 ≤ 31 := by
    rw [daysInMonth_feb]
    split_ifs <;> norm_num
  show addDeltaMicros ⟨y + 0, 2, min (daysInMonth (y + 0) 2) 31, hh, mi, ss, uu⟩ (0 : Int) =
    (⟨y, 2, daysInMonth y 2, hh, mi, ss, uu⟩ : DateTimeV)
  rw [Int.add_zero, min_eq_left hdim]
  exact addDeltaMicros_zero _ hv2

end PendulumSpec

namespace PendulumSpec

/-- C1: on a Moment whose civil date is January 31, add(months=1) keeps the
year and the time fields, moves to February, and clamps the day-of-month into
[1, days_in_month]: Feb 29 in a leap year, Feb 28 otherwise. A subsequent
add(days=1) on that clamped result yields March 1 (never March 3) with the
time fields unchanged; the attached offset is untouched throughout. -/
theorem claim_C1 (st : Pendulum) (hv : ValidDT st.dtv)
    (hm : st.dtv.month = 1) (hd : st.dtv.day = 31) :
    (st.add 0 1 0 0 0 0 0 0 none).dtv =
      { st.dtv with month := 2, day := daysInMonth st.dtv.year 2 } ∧
    daysInMonth st.dtv.year 2 = (if isLeap st.dtv.year then 29 else 28) ∧
    1 ≤ (st.add 0 1 0 0 0 0 0 0 none).dtv.day ∧
    (st.add 0 1 0 0 0 0 0 0 none).dtv.day ≤
      daysInMonth (st.add 0 1 0 0 0 0 0 0 none).dtv.year
        (st.add 0 1 0 0 0 0 0 0 none).dtv.month ∧
    ((st.add 0 1 0 0 0 0 0 0 none).add 0 0 0 1 0 0 0 0 none).dtv =
      { st.dtv with month := 3, day := 1 } ∧
    (st.add 0 1 0 0 0 0 0 0 none).off = st.off ∧
    ((st.add 0 1 0 0 0 0 0 0 none).add 0 0 0 1 0 0 0 0 none).off = st.off := by
  have hA := applyRel_month_jan31 st.dtv hv hm hd
  have hvA : ValidDT ({ st.dtv with month := 2, day := daysInMonth st.dtv.year 2 }) := by
    obtain ⟨h1, h2, h3, h4, h5, h6, h7, h8, h9, h10, h11, h12⟩ := hv
    exact ⟨by norm_num, by norm_num, daysInMonth_pos _ 2, le_refl _,
      h5, h6, h7, h8, h9, h10, h11, h12⟩
  have hcond : ({ st.dtv with month := 2, day := daysInMonth st.dtv.year 2 } :
      DateTimeV).month < 12 := by norm_num
  have hnd : nextDay { st.dtv with month := 2, day := daysInMonth st.dtv.year 2 } =
      { st.dtv with month := 3, day := 1 } := by
    unfold nextDay
    rw [if_neg (lt_irrefl _), if_pos hcond]
    norm_num
  refine ⟨hA, daysInMonth_feb st.dtv.year, ?_, ?_, ?_, rfl, rfl⟩
  · show 1 ≤ (applyRel st.dtv (mkRelDelta 0 1 0 0 0 0 0 0 none)).day
    rw [hA]
    exact daysInMonth_pos _ 2
  · show (applyRel st.dtv (mkRelDelta 0 1 0 0 0 0 0 0 none)).day ≤
      daysInMonth (applyRel st.dtv (mkRelDelta 0 1 0 0 0 0 0 0 none)).year
        (applyRel st.dtv (mkRelDelta 0 1 0 0 0 0 0 0 none)).month
    rw [hA]
  · show applyRel (applyRel st.dtv (mkRelDelta 0 1 0 0 0 0 0 0 none))
      (mkRelDelta 0 0 0 1 0 0 0 0 none) = _
    rw [hA, applyRel_days_one _ hvA, hnd]

/-- Witness for C1 at concrete non-leap (2015) and leap (2016) January 31
moments. -/
theorem claim_C1_witness :
    ((wJan31plain.add 0 1 0 0 0 0 0 0 none).add 0 0 0 1 0 0 0 0 none).dtv =
      { wJan31plain.dtv with month := 3, day := 1 } ∧
    (wJan31leap.add 0 1 0 0 0 0 0 0 none).dtv =
      { wJan31leap.dtv with month := 2, day := daysInMonth wJan31leap.dtv.year 2 } :=
  ⟨(claim_C1 wJan31plain (by decide) rfl rfl).2.2.2.2.1,
   (claim_C1 wJan31leap (by decide) rfl rfl).1⟩

end PendulumSpec

namespace PendulumSpec

/-- day_of_week is the ordinal modulo 7. -/
theorem dayOfWeek_eq (st : Pendulum) : st.dayOfWeek = ordOf st.dtv % 7 := rfl

/-- day_of_week is in [0, 7). -/
theorem dayOfWeek_bounds (st : Pendulum) : 0 ≤ st.dayOfWeek ∧ st.dayOfWeek < 7 := by
  rw [dayOfWeek_eq]
  exact ⟨Int.emod_nonneg _ (by norm_num), Int.emod_lt_of_pos _ (by norm_num)⟩

/-- add_day() on a valid Moment is the Gregorian successor day with the offset
and zone untouched. -/
theorem addDay_state (st : Pendulum) (hv : ValidDT st.dtv) :
    st.addDay = { st with dtv := nextDay st.dtv } := by
  unfold Pendulum.addDay Pendulum.add
  rw [applyRel_days_one st.dtv hv]

/-- start_of_day() zeroes hour, minute and second, keeping the date, the
microsecond field, the offset and the zone. -/
theorem startOfDay_state (st : Pendulum) :
    st.startOfDay = { st with dtv :=
      { st.dtv with hour := 0, minute := 0, second := 0 } } := rfl

/-- The while loop of next() reaches the target weekday, stepping the ordinal
by the circular weekday distance, provided the fuel exceeds that distance. -/
theorem nextAux_spec (fuel : Nat) (t : Int) (st : Pendulum) (hv : ValidDT st.dtv)
    (h0 : 0 ≤ t) (h7 : t < 7)
    (hfuel : ((t - st.dayOfWeek) % 7).toNat < fuel) :
    ValidDT (nextAux fuel t st).dtv ∧
    (nextAux fuel t st).dayOfWeek = t ∧
    ordOf (nextAux fuel t st).dtv = ordOf st.dtv + (t - st.dayOfWeek) % 7 ∧
    (nextAux fuel t st).off = st.off ∧
    (nextAux fuel t st).tz = st.tz := by
  induction fuel generalizing st with
  | zero => omega
  | succ n ih =>
    unfold nextAux
    by_cases heq : st.dayOfWeek = t
    · rw [if_pos heq]
      refine ⟨hv, heq, ?_, rfl, rfl⟩
      rw [heq]
      simp
    · rw [if_neg heq]
      have hbd := dayOfWeek_bounds st
      have hstep := addDay_state st hv
      have hv2 : ValidDT st.addDay.dtv := by
        rw [hstep]
        exact validDT_nextDay st.dtv hv
      have hord : ordOf st.addDay.dtv = ordOf st.dtv + 1 := by
        rw [hstep]
        exact ordOf_nextDay st.dtv hv
      have hdow : st.addDay.dayOfWeek = (ordOf st.dtv + 1) % 7 := by
        rw [dayOfWeek_eq, hord]
      have hfuel2 : ((t - st.addDay.dayOfWeek) % 7).toNat < n := by
        rw [hdow]
        rw [dayOfWeek_eq] at heq hfuel
        omega
      obtain ⟨i1, i2, i3, i4, i5⟩ := ih st.addDay hv2 hfuel2
      refine ⟨i1, i2, ?_, ?_, ?_⟩
      · rw [i3, hord, hdow]
        rw [dayOfWeek_eq] at heq ⊢
        omega
      · rw [i4, hstep]
      · rw [i5, hstep]

/-- next(target) for a genuine weekday target: the result lands on the target
weekday, 1 + ((target − (weekday + 1)) mod 7) days later, with the offset and
zone untouched and validity preserved. -/
theorem next_spec (st : Pendulum) (t : Int) (hv : ValidDT st.dtv)
    (h0 : 0 ≤ t) (h7 : t < 7) :
    ValidDT (st.next (some t)).dtv ∧
    (st.next (some t)).dayOfWeek = t ∧
    ordOf (st.next (some t)).dtv =
      ordOf st.dtv + 1 + (t - (ordOf st.dtv + 1) % 7) % 7 ∧
    (st.next (some t)).off = st.off ∧
    (st.next (some t)).tz = st.tz := by
  have hv1 : ValidDT st.startOfDay.dtv := by
    rw [startOfDay_state]
    obtain ⟨h1, h2, h3, h4, h5, h6, h7', h8, h9, h10, h11, h12⟩ := hv
    exact ⟨h1, h2, h3, h4, by norm_num, by norm_num, by norm_num, by norm_num,
      by norm_num, by norm_num, h11, h12⟩
  have hso : ordOf st.startOfDay.dtv = ordOf st.dtv := rfl
  have hstep := addDay_state st.startOfDay hv1
  have hv2 : ValidDT st.startOfDay.addDay.dtv := by
    rw [hstep]
    exact validDT_nextDay _ hv1
  have hord : ordOf st.startOfDay.addDay.dtv = ordOf st.dtv + 1 := by
    rw [hstep]
    show ordOf (nextDay st.startOfDay.dtv) = _
    rw [ordOf_nextDay _ hv1, hso]
  have hdow : st.startOfDay.addDay.dayOfWeek = (ordOf st.dtv + 1) % 7 := by
    rw [dayOfWeek_eq, hord]
  have hfuel : ((t - st.startOfDay.addDay.dayOfWeek) % 7).toNat < 7 := by
    rw [hdow]
    omega
  obtain ⟨i1, i2, i3, i4, i5⟩ :=
    nextAux_spec 7 t st.startOfDay.addDay hv2 h0 h7 hfuel
  have hoff : st.startOfDay.addDay.off = st.off := by rw [hstep]; rfl
  have htz : st.startOfDay.addDay.tz = st.tz := by rw [hstep]; rfl
  have hnext : st.next (some t) = nextAux 7 t st.startOfDay.addDay := rfl
  rw [hnext]
  exact ⟨i1, i2, by rw [i3, hord, hdow], by rw [i4, hoff], by rw [i5, htz]⟩

end PendulumSpec

namespace PendulumSpec

/-- From a Monday, next(MONDAY) lands exactly seven days later on a Monday. -/
theorem next_monday_step (st : Pendulum) (hv : ValidDT st.dtv)
    (hmon : st.dayOfWeek = 1) :
    ValidDT (st.next (some 1)).dtv ∧ (st.next (some 1)).dayOfWeek = 1 ∧
    ordOf (st.next (some 1)).dtv = ordOf st.dtv + 7 := by
  obtain ⟨i1, i2, i3, _, _⟩ := next_spec st 1 hv (by norm_num) (by norm_num)
  refine ⟨i1, i2, ?_⟩
  rw [i3]
  rw [dayOfWeek_eq] at hmon
  omega

/-- Iterating next(MONDAY) from a Monday advances the ordinal by 7 per step. -/
theorem iterate_next_monday (n : Nat) (st : Pendulum) (hv : ValidDT st.dtv)
    (hmon : st.dayOfWeek = 1) :
    ValidDT ((Pendulum.next (some 1))^[n] st).dtv ∧
    ((Pendulum.next (some 1))^[n] st).dayOfWeek = 1 ∧
    ordOf ((Pendulum.next (some 1))^[n] st).dtv = ordOf st.dtv + 7 * n := by
  induction n generalizing st with
  | zero => simpa using ⟨hv, hmon⟩
  | succ k ih =>
    rw [Function.iterate_succ_apply]
    obtain ⟨s1, s2, s3⟩ := next_monday_step st hv hmon
    obtain ⟨j1, j2, j3⟩ := ih (st.next (some 1)) s1 s2
    refine ⟨j1, j2, ?_⟩
    rw [j3, s3]
    push_cast
    ring

/-- C8 (amended): for every Moment whose weekday is MONDAY, applying
next(MONDAY) seven times returns a Moment with the original weekday (Monday),
exactly 7 × 7 = 49 days after the original date. -/
theorem claim_C8 (st : Pendulum) (hv : ValidDT st.dtv)
    (hmon : st.dayOfWeek = 1) :
    ordOf ((Pendulum.next (some 1))^[7] st).dtv = ordOf st.dtv + 49 ∧
    ((Pendulum.next (some 1))^[7] st).dayOfWeek = st.dayOfWeek ∧
    ValidDT ((Pendulum.next (some 1))^[7] st).dtv := by
  obtain ⟨j1, j2, j3⟩ := iterate_next_monday 7 st hv hmon
  refine ⟨by rw [j3]; norm_num, by rw [j2, hmon], j1⟩

/-- Concrete Monday moment 2016-03-07 08:30:00.000005 UTC. -/
def mMon : Pendulum := ⟨⟨2016, 3, 7, 8, 30, 0, 5⟩, 0, utcZone⟩

/-- Concrete Tuesday moment 2016-03-08 00:00:00 UTC. -/
def mTue : Pendulum := ⟨⟨2016, 3, 8, 0, 0, 0, 0⟩, 0, utcZone⟩

/-- Witness for the amended C8 at a concrete Monday. -/
theorem claim_C8_witness :
    ordOf ((Pendulum.next (some 1))^[7] mMon).dtv = ordOf mMon.dtv + 49 :=
  (claim_C8 mMon (by decide) (by decide)).1

/-- Counterexample to C8 as stated: from a Tuesday, seven applications of
next(MONDAY) land on a Monday — not the original weekday — only 48 days
later, so the claimed property fails for this Moment. -/
theorem claim_C8_counterexample :
    ¬ (ordOf ((Pendulum.next (some 1))^[7] mTue).dtv = ordOf mTue.dtv + 49 ∧
       ((Pendulum.next (some 1))^[7] mTue).dayOfWeek = mTue.dayOfWeek) := by
  decide

end PendulumSpec

namespace PendulumSpec

/-- Iterating next(target) preserves validity, and for at least one step the
result lands on the target weekday. -/
theorem iterate_next_dow (n : Nat) (t : Int) (st : Pendulum) (hv : ValidDT st.dtv)
    (h0 : 0 ≤ t) (h7 : t < 7) :
    ValidDT ((Pendulum.next (some t))^[n] st).dtv ∧
    (1 ≤ n → ((Pendulum.next (some t))^[n] st).dayOfWeek = t) := by
  induction n generalizing st with
  | zero => exact ⟨hv, by omega⟩
  | succ k ih =>
    rw [Function.iterate_succ_apply]
    obtain ⟨s1, s2, _, _, _⟩ := next_spec st t hv h0 h7
    obtain ⟨j1, j2⟩ := ih (st.next (some t)) s1
    refine ⟨j1, fun _ => ?_⟩
    rcases Nat.eq_zero_or_pos k with hk | hk
    · subst hk
      exact s2
    · exact j2 hk

/-- The civil state of first_of_month with no target: day 1, start of day. -/
theorem firstOfMonthNone_state (st : Pendulum) :
    st.firstOfMonth none = { st with dtv :=
      { st.dtv with day := 1, hour := 0, minute := 0, second := 0 } } := rfl

/-- C4: for nth ≥ 2 and a genuine weekday target, nth_of_month returns the
overflow sentinel (False) with every field of the receiver untouched exactly
when the computed occurrence leaves the receiver's (year, month); otherwise
the receiver is set to that occurrence's day at start of day (the target
weekday), keeping year, month, microsecond, offset and zone. -/
theorem claim_C4 (st : Pendulum) (nth t : Int) (hv : ValidDT st.dtv)
    (h0 : 0 ≤ t) (h7 : t < 7) (hn : 2 ≤ nth) :
    ((nthProbe st nth t).dtv.year ≠ st.dtv.year ∨
        (nthProbe st nth t).dtv.month ≠ st.dtv.month →
      st.nthOfMonth nth t = (st, false)) ∧
    ((nthProbe st nth t).dtv.year = st.dtv.year ∧
        (nthProbe st nth t).dtv.month = st.dtv.month →
      st.nthOfMonth nth t =
        ({ st with dtv := { st.dtv with
            day := (nthProbe st nth t).dtv.day, hour := 0, minute := 0, second := 0 } },
          true) ∧
      (nthProbe st nth t).dayOfWeek = t) := by
  have hv0 : ValidDT (st.copy.firstOfMonth none).dtv := by
    rw [show (st.copy.firstOfMonth none).dtv =
      { st.dtv with day := 1, hour := 0, minute := 0, second := 0 } from rfl]
    obtain ⟨h1, h2, h3, h4, h5, h6, h7', h8, h9, h10, h11, h12⟩ := hv
    exact ⟨h1, h2, by norm_num, by simpa using daysInMonth_pos st.dtv.year st.dtv.month,
      by norm_num, by norm_num, by norm_num, by norm_num, by norm_num, by norm_num,
      h11, h12⟩
  have hcnt : 1 ≤ (nth - (if (st.copy.firstOfMonth none).dayOfWeek = t
      then (1 : Int) else 0)).toNat := by
    split_ifs <;> omega
  have hprobe : nthProbe st nth t =
      (Pendulum.next (some t))^[(nth - (if (st.copy.firstOfMonth none).dayOfWeek = t
        then (1 : Int) else 0)).toNat] (st.copy.firstOfMonth none) := rfl
  have hdow : (nthProbe st nth t).dayOfWeek = t := by
    rw [hprobe]
    exact (iterate_next_dow _ t (st.copy.firstOfMonth none) hv0 h0 h7).2 hcnt
  have hne1 : ¬ nth = 1 := by omega
  have hunf : st.nthOfMonth nth t =
      (if (nthProbe st nth t).dtv.year = (st.copy.firstOfMonth none).dtv.year ∧
          (nthProbe st nth t).dtv.month = (st.copy.firstOfMonth none).dtv.month then
        ((st.setDay (nthProbe st nth t).dtv.day).startOfDay, true)
      else (st, false)) := by
    show (if nth = 1 then (st.firstOfMonth (some t), true) else _) = _
    rw [if_neg hne1]
  constructor
  · intro hne
    rw [hunf, if_neg]
    intro hc
    rcases hne with hne | hne
    · exact hne hc.1
    · exact hne hc.2
  · intro hyes
    refine ⟨?_, hdow⟩
    rw [hunf, if_pos ⟨hyes.1, hyes.2⟩]
    rfl

end PendulumSpec

namespace PendulumSpec

/-- Concrete moment 2015-02-10 03:04:05.000006 UTC; February 2015 has exactly
four Fridays (6, 13, 20, 27). -/
def mFeb : Pendulum := ⟨⟨2015, 2, 10, 3, 4, 5, 6⟩, 0, utcZone⟩

/-- Witness for C4: nth_of_month(5, FRIDAY) on February 2015 overflows into
March and returns the sentinel with the receiver untouched, while
nth_of_month(2, FRIDAY) succeeds and sets the receiver to the second Friday at
start of day. -/
theorem claim_C4_witness :
    mFeb.nthOfMonth 5 5 = (mFeb, false) ∧
    mFeb.nthOfMonth 2 5 =
      ({ mFeb with dtv := { mFeb.dtv with
          day := (nthProbe mFeb 2 5).dtv.day, hour := 0, minute := 0, second := 0 } },
        true) :=
  ⟨(claim_C4 mFeb 5 5 (by decide) (by norm_num) (by norm_num) (by norm_num)).1
      (Or.inr (by decide)),
   ((claim_C4 mFeb 2 5 (by decide) (by norm_num) (by norm_num) (by norm_num)).2
      ⟨by decide, by decide⟩).1⟩

end PendulumSpec

namespace PendulumSpec

/-- Month grid as a function of the first day's calendar weekday (Monday = 0)
and the month length only. -/
def gridWN (w n : Nat) : List (List Nat) :=
  let cells := List.replicate w 0 ++ List.range' 1 n ++
    List.replicate (((0 : Int) - w - n) % 7).toNat 0
  chunkWeeks cells.length cells

/-- monthcal depends only on the first weekday and the month length. -/
theorem monthcal_eq (y m : Int) :
    monthcal y m = gridWN ((toOrdinal y m 1 - 1) % 7).toNat (daysInMonth y m).toNat := rfl

/-- Exhaustive check over all (first weekday, month length, target) cases:
first_of_month's pick is a day in [1, 7] and last_of_month's pick a day in
[len − 6, len], both in the target weekday's column. -/
theorem pick_core : ∀ w : Nat, w < 7 → ∀ j : Nat, j < 4 → ∀ tn : Nat, tn < 7 →
    1 ≤ fpick (gridWN w (28 + j)) ((tn + 6) % 7) ∧
    fpick (gridWN w (28 + j)) ((tn + 6) % 7) ≤ 7 ∧
    (w + fpick (gridWN w (28 + j)) ((tn + 6) % 7)) % 7 = tn ∧
    28 + j - 6 ≤ lpick (gridWN w (28 + j)) ((tn + 6) % 7) ∧
    lpick (gridWN w (28 + j)) ((tn + 6) % 7) ≤ 28 + j ∧
    (w + lpick (gridWN w (28 + j)) ((tn + 6) % 7)) % 7 = tn := by decide

/-- Weekday of a day of the month from its grid column congruence. -/
theorem dow_from_pick (y m d t : Int) (h0 : 0 ≤ t) (h7 : t < 7) (hd : 0 ≤ d)
    (hmod : ((((toOrdinal y m 1 - 1) % 7).toNat + d.toNat) % 7 : Nat) = t.toNat) :
    toOrdinal y m d % 7 = t := by
  have hshift : toOrdinal y m d = toOrdinal y m 1 + d - 1 := by
    unfold toOrdinal
    ring
  omega

/-- Civil state of first_of_month with a target. -/
theorem firstOfMonth_state (st : Pendulum) (t : Int) :
    st.firstOfMonth (some t) = { st with dtv := { st.dtv with
      day := (fpick (monthcal st.dtv.year st.dtv.month) ((t - 1) % 7).toNat : Int),
      hour := 0, minute := 0, second := 0 } } := rfl

/-- Civil state of last_of_month with a target. -/
theorem lastOfMonth_state (st : Pendulum) (t : Int) :
    st.lastOfMonth (some t) = { st with dtv := { st.dtv with
      day := (lpick (monthcal st.dtv.year st.dtv.month) ((t - 1) % 7).toNat : Int),
      hour := 0, minute := 0, second := 0 } } := rfl

/-- Column index of a pendulum weekday target in the Monday-first grid. -/
theorem col_eq (t : Int) (h0 : 0 ≤ t) (h7 : t < 7) :
    ((t - 1) % 7).toNat = (t.toNat + 6) % 7 := by
  omega

/-- C10: first_of_month(target) keeps the (year, month), lands on a day in
[1, 7] with the target weekday at time 00:00:00, and last_of_month(target)
lands on a day in [days_in_month − 6, days_in_month] with the target weekday
at time 00:00:00; offset and zone are untouched. -/
theorem claim_C10 (st : Pendulum) (t : Int) (hv : ValidDT st.dtv)
    (h0 : 0 ≤ t) (h7 : t < 7) :
    (st.firstOfMonth (some t)).dtv.year = st.dtv.year ∧
    (st.firstOfMonth (some t)).dtv.month = st.dtv.month ∧
    1 ≤ (st.firstOfMonth (some t)).dtv.day ∧
    (st.firstOfMonth (some t)).dtv.day ≤ 7 ∧
    (st.firstOfMonth (some t)).dayOfWeek = t ∧
    (st.firstOfMonth (some t)).dtv.hour = 0 ∧
    (st.firstOfMonth (some t)).dtv.minute = 0 ∧
    (st.firstOfMonth (some t)).dtv.second = 0 ∧
    (st.firstOfMonth (some t)).off = st.off ∧
    (st.firstOfMonth (some t)).tz = st.tz ∧
    (st.lastOfMonth (some t)).dtv.year = st.dtv.year ∧
    (st.lastOfMonth (some t)).dtv.month = st.dtv.month ∧
    daysInMonth st.dtv.year st.dtv.month - 6 ≤ (st.lastOfMonth (some t)).dtv.day ∧
    (st.lastOfMonth (some t)).dtv.day ≤ daysInMonth st.dtv.year st.dtv.month ∧
    (st.lastOfMonth (some t)).dayOfWeek = t ∧
    (st.lastOfMonth (some t)).dtv.hour = 0 ∧
    (st.lastOfMonth (some t)).dtv.minute = 0 ∧
    (st.lastOfMonth (some t)).dtv.second = 0 ∧
    (st.lastOfMonth (some t)).off = st.off ∧
    (st.lastOfMonth (some t)).tz = st.tz := by
  obtain ⟨h1, h2, _⟩ := hv
  have hw : ((toOrdinal st.dtv.year st.dtv.month 1 - 1) % 7).toNat < 7 := by
    have := Int.emod_nonneg (toOrdinal st.dtv.year st.dtv.month 1 - 1) (by norm_num : (7:Int) ≠ 0)
    have := Int.emod_lt_of_pos (toOrdinal st.dtv.year st.dtv.month 1 - 1) (by norm_num : (0:Int) < 7)
    omega
  obtain ⟨j, hj4, hjn⟩ : ∃ j, j < 4 ∧ (daysInMonth st.dtv.year st.dtv.month).toNat = 28 + j := by
    rcases daysInMonth_cases st.dtv.year st.dtv.month with h | h | h | h <;>
      [exact ⟨0, by norm_num, by omega⟩; exact ⟨1, by norm_num, by omega⟩;
       exact ⟨2, by norm_num, by omega⟩; exact ⟨3, by norm_num, by omega⟩]
  have hdimpos := daysInMonth_pos st.dtv.year st.dtv.month
  obtain ⟨p1, p2, p3, p4, p5, p6⟩ :=
    pick_core _ hw j hj4 t.toNat (by omega)
  have hcol := col_eq t h0 h7
  have hgrid := monthcal_eq st.dtv.year st.dtv.month
  rw [hjn] at hgrid
  set fd := fpick (monthcal st.dtv.year st.dtv.month) ((t - 1) % 7).toNat with hfd
  set ld := lpick (monthcal st.dtv.year st.dtv.month) ((t - 1) % 7).toNat with hld
  have hfd2 : fd = fpick (gridWN ((toOrdinal st.dtv.year st.dtv.month 1 - 1) % 7).toNat
      (28 + j)) ((t.toNat + 6) % 7) := by
    rw [hfd, hgrid, hcol]
  have hld2 : ld = lpick (gridWN ((toOrdinal st.dtv.year st.dtv.month 1 - 1) % 7).toNat
      (28 + j)) ((t.toNat + 6) % 7) := by
    rw [hld, hgrid, hcol]
  rw [← hfd2] at p1 p2 p3
  rw [← hld2] at p4 p5 p6
  rw [firstOfMonth_state, lastOfMonth_state]
  refine ⟨rfl, rfl, ?_, ?_, ?_, rfl, rfl, rfl, rfl, rfl,
    rfl, rfl, ?_, ?_, ?_, rfl, rfl, rfl, rfl, rfl⟩
  · show (1 : Int) ≤ (fd : Int)
    omega
  · show (fd : Int) ≤ 7
    omega
  · show toOrdinal st.dtv.year st.dtv.month (fd : Int) % 7 = t
    exact dow_from_pick _ _ _ _ h0 h7 (by omega) (by omega)
  · show daysInMonth st.dtv.year st.dtv.month - 6 ≤ (ld : Int)
    omega
  · show (ld : Int) ≤ daysInMonth st.dtv.year st.dtv.month
    omega
  · show toOrdinal st.dtv.year st.dtv.month (ld : Int) % 7 = t
    exact dow_from_pick _ _ _ _ h0 h7 (by omega) (by omega)

end PendulumSpec

namespace PendulumSpec

/-- Witness for C10 at February 2015 with target FRIDAY. -/
theorem claim_C10_witness :
    1 ≤ (mFeb.firstOfMonth (some 5)).dtv.day ∧
    (mFeb.firstOfMonth (some 5)).dayOfWeek = 5 ∧
    (mFeb.lastOfMonth (some 5)).dayOfWeek = 5 := by
  obtain ⟨a1, a2, a3, a4, a5, a6, a7, a8, a9, a10,
    b1, b2, b3, b4, b5, b6, b7, b8, b9, b10⟩ :=
    claim_C10 mFeb 5 (by decide) (by norm_num) (by norm_num)
  exact ⟨a3, a5, b5⟩

/-- C7: the custom offset token renders sign then two-digit hours, ':',
two-digit minutes of the absolute offset; the sign is '+' exactly when the
offset (in whole minutes) is strictly positive, so a zero offset renders as
'-00:00'. -/
theorem claim_C7 :
    (∀ st : Pendulum, strfP st =
      (if 0 < st.off then "+" else "-") ++ pad2 (st.off.natAbs / 60) ++ ":" ++
        pad2 (st.off.natAbs % 60)) ∧
    (∀ st : Pendulum, st.off = 0 → strfP st = "-00:00") := by
  have hmain : ∀ st : Pendulum, strfP st =
      (if 0 < st.off then "+" else "-") ++ pad2 (st.off.natAbs / 60) ++ ":" ++
        pad2 (st.off.natAbs % 60) := by
    intro st
    unfold strfP
    rw [Int.mul_ediv_cancel_left st.off (by norm_num : (60 : Int) ≠ 0)]
  refine ⟨hmain, fun st h => ?_⟩
  rw [hmain st, h]
  decide

/-- Witness for C7 at a concrete zero-offset moment. -/
theorem claim_C7_witness : strfP wJan31leap = "-00:00" :=
  claim_C7.2 wJan31leap rfl

/-- C9 (amended): the internal custom-token handler (_strftime) fails with the
UnknownFormatToken error for every token other than 'P'; but the public
strftime never routes an unrecognized token there — a format string with no
"%P" marker is delegated whole to the generic renderer and succeeds. -/
theorem claim_C9 :
    (∀ (st : Pendulum) (tok : List Char), tok ≠ ['P'] →
      strftimeCustom st tok = Except.error ⟨"Unknown formatter %" ++ String.mk tok⟩) ∧
    (∀ (g : List Char → List Char) (st : Pendulum) (fmt : List Char),
      fmt ≠ [] → splitPctP fmt = [fmt] →
      st.strftime g fmt = Except.ok (g fmt)) := by
  constructor
  · intro st tok htok
    unfold strftimeCustom
    rw [if_neg htok]
  · intro g st fmt hne hsplit
    cases fmt with
    | nil => exact absurd rfl hne
    | cons c cs =>
      show strftimeAux g st ((c :: cs).length + 1) (c :: cs) = _
      simp only [List.length_cons]
      simp only [strftimeAux]
      rw [hsplit]
      simp

/-- Witness for the amended C9: a non-'P' token errors in the handler, and a
format with no custom marker is delegated to the generic renderer. -/
theorem claim_C9_witness :
    strftimeCustom wJan31plain ['Q'] =
      Except.error ⟨"Unknown formatter %" ++ String.mk ['Q']⟩ ∧
    Pendulum.strftime (fun s => s) wJan31plain ['%', 'w'] = Except.ok ['%', 'w'] :=
  ⟨claim_C9.1 wJan31plain ['Q'] (by decide),
   claim_C9.2 (fun s => s) wJan31plain ['%', 'w'] (by decide) (by decide)⟩

/-- Counterexample to C9 as stated: the template "%Q" contains a custom-style
token that is not the recognized token 'P', yet format/strftime does not fail
with UnknownFormatToken — it returns the generic renderer's output. -/
theorem claim_C9_counterexample :
    Pendulum.strftime (fun s => s) mTue ['%', 'Q'] = Except.ok ['%', 'Q'] := by
  rfl

end PendulumSpec
